import Mathlib

/-!
Verification of the Peer Close Manager (PCM) of `src/bgp/bgp_peer_close.cc`.

The C++ class `PeerCloseManager` is a seven-state close state machine with
auxiliary bookkeeping (sticky flags, elapsed-time accumulators, a family set,
a membership gate, statistics counters and two one-shot timers).  All of its
handlers run under one mutex, so each handler is modelled as a pure function
from the manager state (plus an environment of oracle answers supplied by the
peer, the membership manager and the timer service) to a new manager state
together with the list of calls made into the peer (`Effect`s).

The internal routines `CloseInternal`, `ProcessClosure`, `CloseComplete`,
`MembershipRequestInternal` and `MembershipRequestCallbackInternal` are
mutually recursive (a latched `close_again` restarts the cycle from
`CloseComplete`).  The recursion depth is bounded (each restart consumes the
latched `close_again` flag), so the mutual group is embedded as one function
`run` over a fuel parameter; `run_fuel_sufficient` below proves that the fuel
used by the event dispatcher never runs out, so the fuel is not observable.

Failed C++ `assert`s are modelled as `Except.error .assertFail`.
-/

deriving instance DecidableEq for Except

namespace BgpPeerClose

/-- The `State` enumeration of `PeerCloseManager`.  The declaring header is
not part of the sources; the constructors and their order follow the
specification listing of the close phases. -/
inductive State
  | NONE
  | STALE
  | GR_TIMER
  | LLGR_STALE
  | LLGR_TIMER
  | SWEEP
  | DELETE
deriving DecidableEq

/-- Modelled from the spec: numeric values of the `State` enumeration, in the
order of the listing of close phases (the C++ header declaring the enum is
not under src/; a plain C++ enum numbers its members 0, 1, 2, ...). -/
def State.toNat : State → Nat
  | .NONE => 0
  | .STALE => 1
  | .GR_TIMER => 2
  | .LLGR_STALE => 3
  | .LLGR_TIMER => 4
  | .SWEEP => 5
  | .DELETE => 6

/-- The `MembershipState` of the membership gate. -/
inductive MembershipState
  | MEMBERSHIP_NONE
  | MEMBERSHIP_IN_WAIT
  | MEMBERSHIP_IN_USE
deriving DecidableEq

/-- The statistics counters of `PeerCloseManager::Stats`. -/
structure Stats where
  init : Nat := 0
  close : Nat := 0
  nested : Nat := 0
  deletes : Nat := 0
  stale : Nat := 0
  llgr_stale : Nat := 0
  sweep : Nat := 0
  gr_timer : Nat := 0
  llgr_timer : Nat := 0
deriving DecidableEq

/-- A one-shot cancellable timer: whether it is armed and the delay it was
last started with (milliseconds, as the C++ `int`). -/
structure Timer where
  armed : Bool := false
  delay : Int := 0
deriving DecidableEq

/-- Address families are abstracted to naturals; `UNSPEC` is the
distinguished value `Address::UNSPEC`. -/
def UNSPEC : Nat := 0

/-- The mutable state of one `PeerCloseManager` instance. -/
structure PCM where
  state : State := .NONE
  close_again : Bool := false
  non_graceful : Bool := false
  gr_elapsed : Nat := 0
  llgr_elapsed : Nat := 0
  families : Finset Nat := ∅
  membership_state : MembershipState := .MEMBERSHIP_NONE
  stats : Stats := {}
  stale_timer : Timer := {}
  sweep_timer : Timer := {}
deriving DecidableEq

/-- The state of a freshly constructed `PeerCloseManager` (the constructor
increments `stats_.init`). -/
def initPCM : PCM := { stats := { init := 1 } }

/-- Oracle answers of the peer, the membership manager and the timer service
during the handling of one event.  Each field is the value returned by the
corresponding external call while the handler runs. -/
structure Env where
  /-- `IPeerClose::IsCloseGraceful` -/
  isCloseGraceful : Bool
  /-- `IPeerClose::IsReady` -/
  isReady : Bool
  /-- `IPeerClose::IsCloseLongLivedGraceful` -/
  isCloseLlgr : Bool
  /-- what `IPeerClose::GetGracefulRestartFamilies` stores into `families_` -/
  grFamilies : Finset Nat
  /-- `IPeerClose::GetGracefulRestartTime` (seconds) -/
  grTime : Nat
  /-- `IPeerClose::GetLongLivedGracefulRestartTime` (seconds) -/
  llgrTime : Nat
  /-- `IPeer::CanUseMembershipManager` -/
  canUse : Bool
  /-- whether `BgpServer::membership_mgr` is non-null -/
  mgrAvail : Bool
  /-- whether `BgpMembershipManager::GetRegisteredRibs` yields no table -/
  tablesEmpty : Bool
  /-- `BgpMembershipManager::IsPending` -/
  isPending : Bool
  /-- `Timer::GetElapsedTime` of the stale timer (milliseconds) -/
  elapsed : Nat
deriving DecidableEq

/-- Calls made by the manager into the peer and the membership layer, in
program order. -/
inductive Effect
  | gracefulRestartStale
  | customClose
  | membershipReq
  | membershipWalk
  | peerDelete
  | peerCloseComplete
  | gracefulRestartSweep
  | cycleRestart
deriving DecidableEq

/-- Failure modes of a handler: a failed C++ `assert`, or fuel exhaustion of
the embedding (shown unreachable by `run_fuel_sufficient`). -/
inductive Err
  | assertFail
  | fuelOut
deriving DecidableEq

/-- `MOVE_TO_STATE`: asserts that the target differs from the current state,
then assigns it. -/
def moveToState (s : PCM) (st : State) : Except Err PCM :=
  if s.state = st then .error .assertFail else .ok { s with state := st }

/-- `StartRestartTimer`: cancel the stale timer and start it with the given
delay. -/
def startRestartTimer (s : PCM) (t : Int) : PCM :=
  { s with stale_timer := { armed := true, delay := t } }

/-- The guard of the first assertion of `MembershipRequestCallbackInternal`,
exactly as written in the source:
`state_ == STALE || LLGR_STALE || state_ == SWEEP || state_ == DELETE`.
The second disjunct is the bare enum constant `LLGR_STALE`, which C++
converts to `true` whenever its numeric value is nonzero. -/
def walkDoneGuard (st : State) : Bool :=
  (st == .STALE) || (State.LLGR_STALE.toNat != 0) || (st == .SWEEP) ||
    (st == .DELETE)

/-- Tags naming the five mutually recursive internal routines. -/
inductive Call
  | ci   -- CloseInternal
  | pc   -- ProcessClosure
  | mri  -- MembershipRequestInternal
  | cbi  -- MembershipRequestCallbackInternal
  | cc   -- CloseComplete
deriving DecidableEq

/-- The state dispatch of `ProcessClosure` (the `switch` of lines 214-260):
choose the next phase, update counters, and emit the `GracefulRestartStale`
notification on entry to `STALE`.  Entered in `STALE`, `LLGR_STALE`, `SWEEP`
or `DELETE` the dispatch is `assert(false)`. -/
def processClosureDispatch (s : PCM) (env : Env) :
    Except Err (PCM × List Effect) :=
  match s.state with
  | .NONE =>
    if s.non_graceful || !env.isCloseGraceful then
      match moveToState s .DELETE with
      | .error e => .error e
      | .ok s1 =>
        .ok ({ s1 with stats := { s1.stats with deletes := s1.stats.deletes + 1 } },
             [])
    else
      match moveToState s .STALE with
      | .error e => .error e
      | .ok s1 =>
        .ok ({ s1 with stats := { s1.stats with stale := s1.stats.stale + 1 } },
             [Effect.gracefulRestartStale])
  | .GR_TIMER =>
    if env.isReady then
      match moveToState s .SWEEP with
      | .error e => .error e
      | .ok s1 =>
        .ok ({ s1 with gr_elapsed := 0, llgr_elapsed := 0,
                       stats := { s1.stats with sweep := s1.stats.sweep + 1 } },
             [])
    else if env.isCloseLlgr then
      match moveToState s .LLGR_STALE with
      | .error e => .error e
      | .ok s1 =>
        .ok ({ s1 with stats := { s1.stats with llgr_stale := s1.stats.llgr_stale + 1 } },
             [])
    else
      match moveToState s .DELETE with
      | .error e => .error e
      | .ok s1 =>
        .ok ({ s1 with stats := { s1.stats with deletes := s1.stats.deletes + 1 } },
             [])
  | .LLGR_TIMER =>
    if env.isReady then
      match moveToState s .SWEEP with
      | .error e => .error e
      | .ok s1 =>
        .ok ({ s1 with gr_elapsed := 0, llgr_elapsed := 0,
                       stats := { s1.stats with sweep := s1.stats.sweep + 1 } },
             [])
    else
      match moveToState s .DELETE with
      | .error e => .error e
      | .ok s1 =>
        .ok ({ s1 with stats := { s1.stats with deletes := s1.stats.deletes + 1 } },
             [])
  | _ => .error .assertFail

/-- The five mutually recursive internal routines of `PeerCloseManager`,
selected by a `Call` tag and embedded with a fuel parameter.

* `.ci`  = `CloseInternal` (lines 135-174)
* `.pc`  = `ProcessClosure` (lines 210-265)
* `.mri` = `MembershipRequestInternal` (lines 316-353)
* `.cbi` = `MembershipRequestCallbackInternal` (lines 364-430)
* `.cc`  = `CloseComplete` (lines 267-280)
-/
def run : Nat → Call → PCM → Env → Except Err (PCM × List Effect)
  | 0, _, _, _ => .error .fuelOut
  | f + 1, c, s, env =>
    match c with
    | .ci =>
      -- stats_.close++, then ignore nested closures
      let s := { s with stats := { s.stats with close := s.stats.close + 1 } }
      if s.close_again then .ok (s, [])
      else
        match s.state with
        | .NONE => run f .pc s env
        | .GR_TIMER =>
          run f .cc
            { s with close_again := true,
                     stats := { s.stats with nested := s.stats.nested + 1 },
                     gr_elapsed := s.gr_elapsed + env.elapsed } env
        | .LLGR_TIMER =>
          run f .cc
            { s with close_again := true,
                     stats := { s.stats with nested := s.stats.nested + 1 },
                     llgr_elapsed := s.llgr_elapsed + env.elapsed } env
        | _ =>
          .ok ({ s with close_again := true,
                        stats := { s.stats with nested := s.stats.nested + 1 } },
               [])
    | .pc =>
      match processClosureDispatch s env with
      | .error e => .error e
      | .ok (s1, ef1) =>
        -- if (state_ == DELETE) peer_close_->CustomClose();
        let ef2 := if s1.state = .DELETE then [Effect.customClose] else []
        match run f .mri s1 env with
        | .error e => .error e
        | .ok (s2, ef3) => .ok (s2, ef1 ++ ef2 ++ ef3)
    | .mri =>
      if s.membership_state = .MEMBERSHIP_IN_USE then .error .assertFail
      else if !env.canUse then
        .ok ({ s with membership_state := .MEMBERSHIP_IN_WAIT },
             [Effect.membershipReq])
      else
        let s := { s with membership_state := .MEMBERSHIP_IN_USE }
        if !env.mgrAvail then .ok (s, [Effect.membershipReq])
        else if env.tablesEmpty then
          match run f .cbi s env with
          | .error e => .error e
          | .ok (s2, ef) => .ok (s2, Effect.membershipReq :: ef)
        else
          .ok (s, [Effect.membershipReq, Effect.membershipWalk])
    | .cbi =>
      if !walkDoneGuard s.state then .error .assertFail
      else if s.membership_state ≠ .MEMBERSHIP_IN_USE then .error .assertFail
      else if env.isPending then .ok (s, [])
      else
        let s := { s with membership_state := .MEMBERSHIP_NONE }
        if s.state = .DELETE then
          match moveToState s .NONE with
          | .error e => .error e
          | .ok s1 =>
            .ok ({ s1 with gr_elapsed := 0, llgr_elapsed := 0,
                           stats := { s1.stats with init := s1.stats.init + 1 },
                           close_again := false, non_graceful := false },
                 [Effect.peerDelete])
        else if s.close_again then
          run f .cc s env
        else if s.state = .STALE then
          match moveToState s .GR_TIMER with
          | .error e => .error e
          | .ok s1 =>
            let s1 := { s1 with families := env.grFamilies }
            let t : Int := (env.grTime * 1000 : Nat) - (s1.gr_elapsed : Int)
            let t := if t < 0 then 0 else t
            let s1 := startRestartTimer s1 t
            .ok ({ s1 with stats := { s1.stats with gr_timer := s1.stats.gr_timer + 1 } },
                 [Effect.peerCloseComplete])
        else if s.state = .LLGR_STALE then
          match moveToState s .LLGR_TIMER with
          | .error e => .error e
          | .ok s1 =>
            let s1 := { s1 with families := env.grFamilies }
            let s1 := startRestartTimer s1 ((env.llgrTime * 1000 : Nat) : Int)
            let t : Int := (env.llgrTime * 1000 : Nat) - (s1.llgr_elapsed : Int)
            let t := if t < 0 then 0 else t
            let s1 := startRestartTimer s1 t
            .ok ({ s1 with stats := { s1.stats with llgr_timer := s1.stats.llgr_timer + 1 } },
                 [])
        else
          -- TriggerSweepStateActions: arm the sweep timer with delay 0
          .ok ({ s with sweep_timer := { armed := true, delay := 0 } }, [])
    | .cc =>
      match moveToState s .NONE with
      | .error e => .error e
      | .ok s1 =>
        let s1 := { s1 with
          stale_timer := { s1.stale_timer with armed := false },
          sweep_timer := { s1.sweep_timer with armed := false },
          families := ∅,
          stats := { s1.stats with init := s1.stats.init + 1 } }
        if s1.close_again then
          match run f .ci { s1 with close_again := false } env with
          | .error e => .error e
          | .ok (s2, ef) => .ok (s2, Effect.cycleRestart :: ef)
        else
          .ok (s1, [])
termination_by structural f => f

/-- `ProcessEORMarkerReceived`: EoR handling (lines 176-187). -/
def processEorMarkerReceived (s : PCM) (family : Nat) : PCM :=
  if (s.state = .GR_TIMER ∨ s.state = .LLGR_TIMER) ∧ s.families ≠ ∅ then
    let fams := if family = UNSPEC then (∅ : Finset Nat)
                else s.families.erase family
    let s1 := { s with families := fams }
    if fams = ∅ then startRestartTimer s1 0 else s1
  else s

/-- Fuel given to the event dispatcher; `run_fuel_sufficient` shows it is
never exhausted. -/
def fuelN : Nat := 12

/-- The externally triggered events of the manager: an external `Close`, an
EoR marker, the two timer callbacks, the membership completion callback and
an external `MembershipRequest` retrigger.  Each event carries the oracle
answers in force while its handler runs. -/
inductive Event
  | close (g : Bool) (env : Env)
  | eor (family : Nat)
  | restartTimerFired (env : Env)
  | sweepTimerFired (env : Env)
  | walkDone (env : Env)
  | membershipReqEvt (env : Env)
deriving DecidableEq

/-- One event handled under the manager mutex.

* `close g`: `Close(g)` ORs `g` into the sticky `non_graceful_` flag and
  calls `CloseInternal`.
* `eor`: `ProcessEORMarkerReceived`.
* `restartTimerFired`: the stale timer fires (it is one-shot, so it disarms;
  a callback delivered after a cancel is a no-op).  `RestartTimerCallback`
  calls `ProcessClosure` only in `GR_TIMER` or `LLGR_TIMER`.
* `sweepTimerFired`: the sweep timer fires; `ProcessSweepStateActions`
  asserts `state_ == SWEEP`, notifies `GracefulRestartSweep` and calls
  `CloseComplete`.
* `walkDone`: `MembershipRequestCallback`.
* `membershipReqEvt`: external `MembershipRequest`. -/
def step (s : PCM) : Event → Except Err (PCM × List Effect)
  | .close g env => run fuelN .ci { s with non_graceful := s.non_graceful || g } env
  | .eor family => .ok (processEorMarkerReceived s family, [])
  | .restartTimerFired env =>
    if s.stale_timer.armed = false then .ok (s, [])
    else
      let s := { s with stale_timer := { s.stale_timer with armed := false } }
      if s.state = .GR_TIMER ∨ s.state = .LLGR_TIMER then run fuelN .pc s env
      else .ok (s, [])
  | .sweepTimerFired env =>
    if s.sweep_timer.armed = false then .ok (s, [])
    else
      let s := { s with sweep_timer := { s.sweep_timer with armed := false } }
      if s.state = .SWEEP then
        match run fuelN .cc s env with
        | .error e => .error e
        | .ok (s1, ef) => .ok (s1, Effect.gracefulRestartSweep :: ef)
      else .error .assertFail
  | .walkDone env => run fuelN .cbi s env
  | .membershipReqEvt env => run fuelN .mri s env

/-- Run a list of events from a state, accumulating the effects. -/
def runTrace : PCM → List Event → Except Err (PCM × List Effect)
  | s, [] => .ok (s, [])
  | s, e :: rest =>
    match step s e with
    | .error err => .error err
    | .ok (s1, ef) =>
      match runTrace s1 rest with
      | .error err => .error err
      | .ok (s2, ef2) => .ok (s2, ef ++ ef2)

/-- The states of the manager reachable from construction by events whose
handlers complete without a failed assertion. -/
inductive Reachable : PCM → Prop
  | init : Reachable initPCM
  | next {s : PCM} {e : Event} {s1 : PCM} {ef : List Effect} :
      Reachable s → step s e = .ok (s1, ef) → Reachable s1

/-- A state reached by a whole trace is reachable. -/
theorem reachable_of_runTrace {s s1 : PCM} {tr : List Event}
    {ef : List Effect} (h0 : Reachable s) (h : runTrace s tr = .ok (s1, ef)) :
    Reachable s1 := by
  induction tr generalizing s ef with
  | nil =>
    simp only [runTrace] at h
    cases h
    exact h0
  | cons e rest ih =>
    simp only [runTrace] at h
    split at h
    · exact absurd h (by simp)
    next s2 ef2 hstep =>
      split at h
      · exact absurd h (by simp)
      next s3 ef3 hrest =>
        cases h
        exact ih (Reachable.next h0 hstep) hrest

/-! ## The per-path callback of RIB-In walks (`MembershipPathCallback`) -/

/-- Modelled from the spec: the flag word of a `BgpPath`, split into the two
bits the close manager reads and writes (`BgpPath::Stale`,
`BgpPath::LlgrStale`) and the remaining bits, which it only copies.  The
header declaring the numeric bit values is not under src/. -/
structure PathFlags where
  stale : Bool
  llgrStale : Bool
  rest : Nat
deriving DecidableEq

/-- The values of the local `uint32_t stale` of `MembershipPathCallback`:
`0`, `BgpPath::Stale` or `BgpPath::LlgrStale`. -/
inductive StaleMask
  | zero
  | staleBit
  | llgrStaleBit
deriving DecidableEq

/-- Bitwise OR of a flag word with a `StaleMask` (`path->GetFlags() | stale`). -/
def orFlags (fl : PathFlags) : StaleMask → PathFlags
  | .zero => fl
  | .staleBit => { fl with stale := true }
  | .llgrStaleBit => { fl with llgrStale := true }

/-- A community list attached to a path attribute. -/
structure Community where
  values : List Nat
deriving DecidableEq

/-- The slice of `BgpAttr` the callback inspects. -/
structure BgpAttr where
  community : Option Community
deriving DecidableEq

/-- Modelled from the spec: the numeric value of `CommunityType::NoLlgr`
(the RFC 9494 NO_LLGR community, 0xFFFF0007); the declaring header is not
under src/.  No claim depends on the numeric value. -/
def NoLlgr : Nat := 0xFFFF0007

/-- `path->GetAttr()->community() && community()->ContainsValue(NoLlgr)`. -/
def hasNoLlgr (a : BgpAttr) : Bool :=
  match a.community with
  | some c => c.values.contains NoLlgr
  | none => false

/-- The slice of `BgpPath` the callback reads and writes. -/
structure BgpPath where
  flags : PathFlags
  attr : BgpAttr
  pathId : Nat
  label : Nat
deriving DecidableEq

/-- `DBRequest::DBOperation` as used by the callback. -/
inductive DBOperation
  | DB_ENTRY_ADD_CHANGE
  | DB_ENTRY_DELETE
deriving DecidableEq

/-- The request fed to `BgpTable::InputCommon`: operation, attributes, and
the original path identifier, merged flag word and label. -/
structure InputReq where
  oper : DBOperation
  attrs : Option BgpAttr
  pathId : Nat
  flags : PathFlags
  label : Nat
deriving DecidableEq

/-- The final `table->InputCommon(root, rt, path, peer, NULL, oper, attrs,
path->GetPathId(), path->GetFlags() | stale, path->GetLabel())` call. -/
def feedInput (p : BgpPath) (oper : DBOperation) (attrs : Option BgpAttr)
    (mask : StaleMask) : BgpPath × Option InputReq :=
  (p, some { oper := oper, attrs := attrs, pathId := p.pathId,
             flags := orFlags p.flags mask, label := p.label })

/-- `PeerCloseManager::MembershipPathCallback` (lines 450-527): dispatch on
the close state for one path of a RIB-In walk.  The result is the path (with
its flags possibly rewritten in `SWEEP`) and the request fed to the table
input process, `none` when the callback returns `false` without feeding
one. -/
def membershipPathCallback (st : State) (p : BgpPath) :
    BgpPath × Option InputReq :=
  match st with
  | .NONE => (p, none)
  | .GR_TIMER => (p, none)
  | .LLGR_TIMER => (p, none)
  | .SWEEP =>
    -- Stale paths must be deleted.
    if !p.flags.stale && !p.flags.llgrStale then (p, none)
    else
      let p := { p with flags := { p.flags with stale := false, llgrStale := false } }
      feedInput p .DB_ENTRY_DELETE none .zero
  | .DELETE =>
    -- This path must be deleted.  Hence attr is not required.
    feedInput p .DB_ENTRY_DELETE none .zero
  | .STALE =>
    if p.flags.stale then (p, none)
    else feedInput p .DB_ENTRY_ADD_CHANGE (some p.attr) .staleBit
  | .LLGR_STALE =>
    -- If the path has NO_LLGR community, DELETE it.
    if hasNoLlgr p.attr then feedInput p .DB_ENTRY_DELETE none .zero
    else if p.flags.llgrStale then (p, none)
    else feedInput p .DB_ENTRY_ADD_CHANGE (some p.attr) .llgrStaleBit

/-- Claim C2: for every path presented to the per-path callback during a
RIB-In walk: in states NONE, GR_TIMER and LLGR_TIMER the callback returns
false without modifying the path; in STALE an already-stale path is left
untouched and any other path is fed as ADD_CHANGE with its existing
attributes and the STALE flag merged in; in LLGR_STALE a path whose
attributes carry the NO_LLGR community is fed as DELETE with null
attributes, an already-llgr-stale path is untouched, and any other path is
fed as ADD_CHANGE with the LLGR_STALE flag; in SWEEP a path that is neither
stale nor llgr-stale is untouched while a stale or llgr-stale path has both
flags cleared and is fed as DELETE with null attributes; in DELETE every
path is fed as DELETE with null attributes; and every dispatched operation
preserves the original path_id, merged flags and label of the path. -/
theorem C2_membership_path_callback (p : BgpPath) :
    membershipPathCallback .NONE p = (p, none) ∧
    membershipPathCallback .GR_TIMER p = (p, none) ∧
    membershipPathCallback .LLGR_TIMER p = (p, none) ∧
    membershipPathCallback .STALE p =
      (if p.flags.stale = true then (p, none)
       else (p, some { oper := .DB_ENTRY_ADD_CHANGE, attrs := some p.attr,
                       pathId := p.pathId,
                       flags := { p.flags with stale := true },
                       label := p.label })) ∧
    membershipPathCallback .LLGR_STALE p =
      (if hasNoLlgr p.attr = true then
         (p, some { oper := .DB_ENTRY_DELETE, attrs := none,
                    pathId := p.pathId, flags := p.flags, label := p.label })
       else if p.flags.llgrStale = true then (p, none)
       else (p, some { oper := .DB_ENTRY_ADD_CHANGE, attrs := some p.attr,
                       pathId := p.pathId,
                       flags := { p.flags with llgrStale := true },
                       label := p.label })) ∧
    membershipPathCallback .SWEEP p =
      (if p.flags.stale = false ∧ p.flags.llgrStale = false then (p, none)
       else
         ({ p with flags := { p.flags with stale := false, llgrStale := false } },
          some { oper := .DB_ENTRY_DELETE, attrs := none, pathId := p.pathId,
                 flags := { p.flags with stale := false, llgrStale := false },
                 label := p.label })) ∧
    membershipPathCallback .DELETE p =
      (p, some { oper := .DB_ENTRY_DELETE, attrs := none, pathId := p.pathId,
                 flags := p.flags, label := p.label }) := by
  refine ⟨rfl, rfl, rfl, ?_, ?_, ?_, rfl⟩
  · by_cases h : p.flags.stale = true <;>
      simp [membershipPathCallback, feedInput, orFlags, h]
  · by_cases h1 : hasNoLlgr p.attr = true <;>
      by_cases h2 : p.flags.llgrStale = true <;>
        simp [membershipPathCallback, feedInput, orFlags, h1, h2]
  · by_cases h1 : p.flags.stale = true <;>
      by_cases h2 : p.flags.llgrStale = true <;>
        simp [membershipPathCallback, feedInput, orFlags, h1, h2]

/-! ## Claim C1: the `ProcessClosure` dispatch -/

/-- The dispatch of `ProcessClosure` emits at most the stale notification. -/
theorem processClosureDispatch_effects {s : PCM} {env : Env} {s1 : PCM}
    {ef1 : List Effect} (h : processClosureDispatch s env = .ok (s1, ef1)) :
    ef1 = [] ∨ ef1 = [Effect.gracefulRestartStale] := by
  unfold processClosureDispatch moveToState at h
  dsimp only at h
  repeat' split at h
  all_goals try exact Except.noConfusion h
  all_goals simp only [Except.ok.injEq, Prod.mk.injEq] at h
  all_goals obtain ⟨-, h2⟩ := h
  all_goals subst h2
  all_goals simp

/-- `MembershipRequestInternal` always records the membership request as its
first effect. -/
theorem mri_effects_head {f : Nat} {s : PCM} {env : Env} {s2 : PCM}
    {ef : List Effect} (h : run f .mri s env = .ok (s2, ef)) :
    ∃ tl, ef = Effect.membershipReq :: tl := by
  cases f with
  | zero => exact Except.noConfusion h
  | succ f =>
    unfold run at h
    dsimp only at h
    repeat' split at h
    all_goals try exact Except.noConfusion h
    all_goals simp only [Except.ok.injEq, Prod.mk.injEq] at h
    all_goals obtain ⟨-, h2⟩ := h
    all_goals exact ⟨_, h2.symm⟩

/-- Claim C1: `process_closure` dispatches on the current state as follows.
From NONE, if the sticky non_graceful flag is set or the peer close is not
graceful it moves to DELETE and increments the deletes counter, otherwise it
moves to STALE, increments the stale counter and invokes
`GracefulRestartStale`.  From GR_TIMER, if the peer is ready it moves to
SWEEP clearing both gr_elapsed and llgr_elapsed and incrementing sweep, else
if the close is long-lived-graceful it moves to LLGR_STALE incrementing
llgr_stale, else to DELETE incrementing deletes.  And whenever the new state
is DELETE, `CustomClose` is called exactly once before the membership walk
is requested: among the effects emitted before the first membership request
marker, `customClose` occurs once when the dispatch chose DELETE and never
otherwise. -/
theorem C1_process_closure (s : PCM) (env : Env) (f : Nat) :
    (processClosureDispatch { s with state := .NONE } env =
      if s.non_graceful || !env.isCloseGraceful then
        .ok ({ s with state := .DELETE
                      stats := { s.stats with deletes := s.stats.deletes + 1 } },
             [])
      else
        .ok ({ s with state := .STALE
                      stats := { s.stats with stale := s.stats.stale + 1 } },
             [Effect.gracefulRestartStale])) ∧
    (processClosureDispatch { s with state := .GR_TIMER } env =
      if env.isReady then
        .ok ({ s with state := .SWEEP
                      gr_elapsed := 0
                      llgr_elapsed := 0
                      stats := { s.stats with sweep := s.stats.sweep + 1 } },
             [])
      else if env.isCloseLlgr then
        .ok ({ s with state := .LLGR_STALE
                      stats := { s.stats with llgr_stale := s.stats.llgr_stale + 1 } },
             [])
      else
        .ok ({ s with state := .DELETE
                      stats := { s.stats with deletes := s.stats.deletes + 1 } },
             [])) ∧
    (∀ s2 ef, run (f + 1) .pc s env = .ok (s2, ef) →
      (List.count Effect.customClose
          (List.takeWhile (fun e => e != Effect.membershipReq) ef) =
        match processClosureDispatch s env with
        | .ok (s1, _) => if s1.state = .DELETE then 1 else 0
        | .error _ => 0) ∧
      Effect.membershipReq ∈ ef) := by
  refine ⟨?_, ?_, ?_⟩
  · by_cases hg : (s.non_graceful || !env.isCloseGraceful) = true <;>
      simp [processClosureDispatch, moveToState, hg]
  · by_cases hr : env.isReady = true <;>
      by_cases hl : env.isCloseLlgr = true <;>
        simp [processClosureDispatch, moveToState, hr, hl]
  · intro s2 ef hrun
    unfold run at hrun
    cases hd : processClosureDispatch s env with
    | error e => rw [hd] at hrun; exact absurd hrun (by simp)
    | ok r =>
      obtain ⟨s1, ef1⟩ := r
      rw [hd] at hrun
      simp only at hrun
      cases hm : run f .mri s1 env with
      | error e => rw [hm] at hrun; exact absurd hrun (by simp)
      | ok r3 =>
        obtain ⟨s3, ef3⟩ := r3
        rw [hm] at hrun
        simp only at hrun
        obtain ⟨rfl, rfl⟩ : s3 = s2 ∧
            ef1 ++ (if s1.state = .DELETE then [Effect.customClose] else []) ++ ef3
              = ef := by
          cases hrun; exact ⟨rfl, rfl⟩
        obtain ⟨tl, rfl⟩ := mri_effects_head hm
        rcases processClosureDispatch_effects hd with rfl | rfl <;>
          by_cases hds : s1.state = .DELETE <;>
            simp [hds, List.takeWhile, List.count_cons] <;>
              decide

/-- A non-graceful close pending in the idle state. -/
def sC1 : PCM := { initPCM with non_graceful := true }

/-- Oracle answers: membership manager usable and available, registered
tables present, peer not ready. -/
def envC1 : Env where
  isCloseGraceful := true
  isReady := false
  isCloseLlgr := false
  grFamilies := ∅
  grTime := 120
  llgrTime := 600
  canUse := true
  mgrAvail := true
  tablesEmpty := false
  isPending := false
  elapsed := 0

/-- Witness for C1 at a concrete input: a non-graceful closure from NONE
moves to DELETE and emits exactly one `customClose` before the membership
request marker. -/
theorem C1_witness :
    List.count Effect.customClose
        (List.takeWhile (fun e => e != Effect.membershipReq)
          [Effect.customClose, Effect.membershipReq, Effect.membershipWalk]) = 1 ∧
    Effect.membershipReq ∈
      [Effect.customClose, Effect.membershipReq, Effect.membershipWalk] := by
  have h := (C1_process_closure sC1 envC1 11).2.2
    { sC1 with state := .DELETE
               membership_state := .MEMBERSHIP_IN_USE
               stats := { sC1.stats with deletes := 1 } }
    [Effect.customClose, Effect.membershipReq, Effect.membershipWalk]
    (by decide)
  refine ⟨?_, h.2⟩
  rw [h.1]
  decide

/-! ## Claim C5: EoR processing -/

/-- Outside `GR_TIMER`/`LLGR_TIMER`, or with no awaited family, an EoR is a
no-op. -/
theorem eor_noop {s : PCM} {family : Nat}
    (h : ¬((s.state = .GR_TIMER ∨ s.state = .LLGR_TIMER) ∧ s.families ≠ ∅)) :
    processEorMarkerReceived s family = s := by
  unfold processEorMarkerReceived
  rw [if_neg h]

/-- An `UNSPEC` EoR in a waiting state clears the family set and re-arms the
restart timer with delay 0. -/
theorem eor_active_unspec {s : PCM}
    (hst : s.state = .GR_TIMER ∨ s.state = .LLGR_TIMER)
    (hne : s.families ≠ ∅) :
    processEorMarkerReceived s UNSPEC =
      { s with families := ∅
               stale_timer := { armed := true, delay := 0 } } := by
  unfold processEorMarkerReceived
  rw [if_pos ⟨hst, hne⟩]
  simp [startRestartTimer]

/-- A family-specific EoR in a waiting state erases the family, re-arming
the timer with delay 0 exactly when the set becomes empty. -/
theorem eor_active_erase {s : PCM} {family : Nat}
    (hst : s.state = .GR_TIMER ∨ s.state = .LLGR_TIMER)
    (hne : s.families ≠ ∅) (hf : family ≠ UNSPEC) :
    processEorMarkerReceived s family =
      if s.families.erase family = ∅ then
        { s with families := s.families.erase family
                 stale_timer := { armed := true, delay := 0 } }
      else { s with families := s.families.erase family } := by
  unfold processEorMarkerReceived
  rw [if_pos ⟨hst, hne⟩]
  simp only [hf, if_neg, ite_false]
  by_cases he : s.families.erase family = ∅ <;> simp [he, startRestartTimer]

/-- Claim C5: `eor_received(family)` changes state only when the current
state is GR_TIMER or LLGR_TIMER and the families set is non-empty; in that
case family == UNSPEC clears the whole set and any other family is removed
from the set, and exactly when the set becomes empty the restart timer is
re-armed with delay 0; in every other state, or when families is already
empty, the call is a no-op; and a duplicate EoR for an already-removed
family makes no further change (the handler is idempotent). -/
theorem C5_eor_received (s : PCM) (family : Nat) :
    ((s.state ≠ .GR_TIMER ∧ s.state ≠ .LLGR_TIMER) ∨ s.families = ∅ →
      processEorMarkerReceived s family = s) ∧
    ((s.state = .GR_TIMER ∨ s.state = .LLGR_TIMER) → s.families ≠ ∅ →
      processEorMarkerReceived s UNSPEC =
        { s with families := ∅
                 stale_timer := { armed := true, delay := 0 } }) ∧
    ((s.state = .GR_TIMER ∨ s.state = .LLGR_TIMER) → s.families ≠ ∅ →
      family ≠ UNSPEC →
      processEorMarkerReceived s family =
        if s.families.erase family = ∅ then
          { s with families := s.families.erase family
                   stale_timer := { armed := true, delay := 0 } }
        else { s with families := s.families.erase family }) ∧
    processEorMarkerReceived (processEorMarkerReceived s family) family =
      processEorMarkerReceived s family := by
  refine ⟨?_, eor_active_unspec, eor_active_erase, ?_⟩
  · rintro (⟨h1, h2⟩ | hemp)
    · exact eor_noop (by simp [h1, h2])
    · exact eor_noop (by simp [hemp])
  · by_cases hcond :
      (s.state = .GR_TIMER ∨ s.state = .LLGR_TIMER) ∧ s.families ≠ ∅
    · obtain ⟨hst, hne⟩ := hcond
      by_cases hf : family = UNSPEC
      · subst hf
        rw [eor_active_unspec hst hne]
        exact eor_noop (by simp)
      · rw [eor_active_erase hst hne hf]
        by_cases he : s.families.erase family = ∅
        · rw [if_pos he]
          exact eor_noop (by simp [he])
        · rw [if_neg he]
          rw [eor_active_erase
                (s := { s with families := s.families.erase family }) hst he hf]
          rw [if_neg (by simp [Finset.erase_idem, he])]
          simp [Finset.erase_idem]
    · rw [eor_noop hcond, eor_noop hcond]

/-- A manager waiting in `GR_TIMER` for EoRs of two families. -/
def sC5 : PCM := { initPCM with state := .GR_TIMER, families := ({1, 2} : Finset Nat) }

/-- Witness for C5 at a concrete input: one EoR removes its family without
touching the timer; an `UNSPEC` EoR clears the set and re-arms at 0. -/
theorem C5_witness :
    processEorMarkerReceived sC5 1 = { sC5 with families := ({2} : Finset Nat) } ∧
    processEorMarkerReceived sC5 UNSPEC =
      { sC5 with families := ∅
                 stale_timer := { armed := true, delay := 0 } } := by
  constructor
  · rw [(C5_eor_received sC5 1).2.2.1 (Or.inl rfl) (by decide) (by decide)]
    decide
  · exact (C5_eor_received sC5 UNSPEC).2.1 (Or.inl rfl) (by decide)

/-! ## Claim C4: the entry assertion of the walk-done callback -/

/-- Claim C4 (code bug): the guard at entry to `membership_walk_done` is
meant to enforce that the state is one of {STALE, LLGR_STALE, SWEEP,
DELETE}, but the source writes the second disjunct as the bare enum
constant `LLGR_STALE`, whose numeric value is nonzero; the whole condition
is therefore identically true and the callback proceeds, rather than
aborting, in NONE, GR_TIMER and LLGR_TIMER as well. -/
theorem C4_walk_done_guard_vacuous :
    walkDoneGuard .NONE = true ∧ walkDoneGuard .GR_TIMER = true ∧
    walkDoneGuard .LLGR_TIMER = true ∧ ∀ st, walkDoneGuard st = true := by
  refine ⟨rfl, rfl, rfl, ?_⟩
  intro st
  cases st <;> rfl

/-! ## Claim C6: nested close during the GR window -/

/-- The negative clamp of the restart delay equals a `max` with zero. -/
theorem clamp_eq_max (t : Int) : (if t < 0 then 0 else t) = max 0 t := by
  rcases lt_or_ge t 0 with h | h
  · rw [if_pos h, max_eq_left h.le]
  · rw [if_neg (not_lt.mpr h), max_eq_right h]

/-- Claim C6: a `close()` arriving in state GR_TIMER with `close_again`
still false sets `close_again`, adds the elapsed time of the restart timer
to `gr_elapsed`, increments the nested counter and calls `close_complete`
(first conjunct: `CloseInternal` reduces to `CloseComplete` applied to
exactly that updated state, with the close counter also incremented at
entry); and when the restarted cycle re-enters GR_TIMER from STALE, the
restart timer is armed with `max 0 (grTime * 1000 - gr_elapsed)` (second
conjunct). -/
theorem C6_nested_close_gr_timer (s s2 : PCM) (env : Env) (f : Nat)
    (h1 : s.state = .GR_TIMER) (h2 : s.close_again = false)
    (h3 : s2.state = .STALE) (h4 : s2.close_again = false)
    (h5 : s2.membership_state = .MEMBERSHIP_IN_USE)
    (h6 : env.isPending = false) :
    run (f + 1) .ci s env =
      run f .cc
        { s with close_again := true
                 gr_elapsed := s.gr_elapsed + env.elapsed
                 stats := { s.stats with close := s.stats.close + 1
                                         nested := s.stats.nested + 1 } } env ∧
    run (f + 1) .cbi s2 env =
      .ok ({ s2 with
              state := .GR_TIMER
              membership_state := .MEMBERSHIP_NONE
              families := env.grFamilies
              stale_timer :=
                { armed := true
                  delay := max 0 (((env.grTime * 1000 : Nat) : Int) -
                    (s2.gr_elapsed : Int)) }
              stats := { s2.stats with gr_timer := s2.stats.gr_timer + 1 } },
           [Effect.peerCloseComplete]) := by
  constructor
  · simp only [run, h1, h2]
    rfl
  · simp only [run, walkDoneGuard, moveToState, startRestartTimer, h3, h4, h5, h6]
    simp only [clamp_eq_max]
    rfl

/-- A manager in the GR wait window. -/
def sC6a : PCM := { initPCM with state := .GR_TIMER }

/-- A manager whose STALE walk just completed after a nested close that
accumulated 30000 ms of elapsed GR time. -/
def sC6b : PCM :=
  { initPCM with state := .STALE
                 membership_state := .MEMBERSHIP_IN_USE
                 gr_elapsed := 30000 }

/-- Oracles for the C6 witness: GR time 120 s, 30000 ms already elapsed. -/
def envC6 : Env where
  isCloseGraceful := true
  isReady := false
  isCloseLlgr := false
  grFamilies := ∅
  grTime := 120
  llgrTime := 600
  canUse := true
  mgrAvail := true
  tablesEmpty := true
  isPending := false
  elapsed := 30000

/-- Witness for C6: with GR time 120000 ms and 30000 ms elapsed, the
re-entry into GR_TIMER arms the restart timer at 90000 ms. -/
theorem C6_witness :
    run (11 + 1) .cbi sC6b envC6 =
      .ok ({ state := .GR_TIMER, close_again := false, non_graceful := false,
             gr_elapsed := 30000, llgr_elapsed := 0, families := ∅,
             membership_state := .MEMBERSHIP_NONE,
             stats := { init := 1, gr_timer := 1 },
             stale_timer := { armed := true, delay := 90000 },
             sweep_timer := {} }, [Effect.peerCloseComplete]) := by
  rw [(C6_nested_close_gr_timer sC6a sC6b envC6 11 rfl rfl rfl rfl rfl rfl).2]
  decide

/-! ## Claim C7: the duplicated LLGR timer arming -/

/-- Modelled from the spec: the `LLGR_STALE` branch of the walk-done
callback with a single timer arming at the elapsed-adjusted value, the form
the spec says the duplicated arming of the source is equivalent to. -/
def cbiLlgrSingleArm (s : PCM) (env : Env) : Except Err (PCM × List Effect) :=
  let s0 := { s with membership_state := .MEMBERSHIP_NONE }
  match moveToState s0 .LLGR_TIMER with
  | .error e => .error e
  | .ok s1 =>
    let s1 := { s1 with families := env.grFamilies }
    let t : Int := (env.llgrTime * 1000 : Nat) - (s1.llgr_elapsed : Int)
    let t := if t < 0 then 0 else t
    let s1 := startRestartTimer s1 t
    .ok ({ s1 with stats := { s1.stats with llgr_timer := s1.stats.llgr_timer + 1 } },
         [])

/-- Claim C7: the LLGR_TIMER arming sequence that first arms the restart
timer with the full configured LLGR duration and then immediately re-arms
it with the elapsed-adjusted duration is observationally equivalent to a
single arming, because each arming cancels the previous one: from
LLGR_STALE the walk-done callback of the source equals the single-arming
variant, and the resulting one-shot timer is armed exactly once, with delay
`max 0 (llgrTime * 1000 - llgr_elapsed)`. -/
theorem C7_llgr_double_arm_equiv (s : PCM) (env : Env) (f : Nat)
    (h1 : s.state = .LLGR_STALE) (h2 : s.close_again = false)
    (h3 : s.membership_state = .MEMBERSHIP_IN_USE)
    (h4 : env.isPending = false) :
    run (f + 1) .cbi s env = cbiLlgrSingleArm s env ∧
    cbiLlgrSingleArm s env =
      .ok ({ s with
              state := .LLGR_TIMER
              membership_state := .MEMBERSHIP_NONE
              families := env.grFamilies
              stale_timer :=
                { armed := true
                  delay := max 0 (((env.llgrTime * 1000 : Nat) : Int) -
                    (s.llgr_elapsed : Int)) }
              stats := { s.stats with llgr_timer := s.stats.llgr_timer + 1 } },
           []) := by
  constructor
  · simp only [run, cbiLlgrSingleArm, walkDoneGuard, moveToState,
      startRestartTimer, h1, h2, h3, h4]
    rfl
  · simp only [cbiLlgrSingleArm, moveToState, startRestartTimer, h1, h3]
    simp only [clamp_eq_max]
    rfl

/-- A manager whose LLGR_STALE walk just completed, with 200000 ms of
accumulated LLGR elapsed time. -/
def sC7 : PCM :=
  { initPCM with state := .LLGR_STALE
                 membership_state := .MEMBERSHIP_IN_USE
                 llgr_elapsed := 200000 }

/-- Oracles for the C7 witness: LLGR time 600 s. -/
def envC7 : Env where
  isCloseGraceful := true
  isReady := false
  isCloseLlgr := true
  grFamilies := ∅
  grTime := 120
  llgrTime := 600
  canUse := true
  mgrAvail := true
  tablesEmpty := true
  isPending := false
  elapsed := 0

/-- Witness for C7: with LLGR time 600000 ms and 200000 ms elapsed, both
the source form and the single-arming form leave the timer armed once at
400000 ms. -/
theorem C7_witness :
    run (11 + 1) .cbi sC7 envC7 = cbiLlgrSingleArm sC7 envC7 ∧
    cbiLlgrSingleArm sC7 envC7 =
      .ok ({ state := .LLGR_TIMER, close_again := false, non_graceful := false,
             gr_elapsed := 0, llgr_elapsed := 200000, families := ∅,
             membership_state := .MEMBERSHIP_NONE,
             stats := { init := 1, llgr_timer := 1 },
             stale_timer := { armed := true, delay := 400000 },
             sweep_timer := {} }, []) := by
  have h := C7_llgr_double_arm_equiv sC7 envC7 11 rfl rfl rfl rfl
  refine ⟨h.1, ?_⟩
  rw [h.2]
  decide

/-! ## Claim C9: membership manager handle unavailable -/

/-- Claim C9 (amended): when a membership walk is requested with
`can_use_membership_manager()` true but the membership manager handle null,
the request marks the membership phase IN_USE and returns immediately: no
walk-done callback runs inline, the close cycle does not advance, and the
membership phase stays engaged (unlike the empty-table case). -/
theorem C9_mgr_null_parks_in_use (s : PCM) (env : Env) (f : Nat)
    (h1 : s.membership_state ≠ .MEMBERSHIP_IN_USE)
    (h2 : env.canUse = true) (h3 : env.mgrAvail = false) :
    run (f + 1) .mri s env =
      .ok ({ s with membership_state := .MEMBERSHIP_IN_USE },
           [Effect.membershipReq]) := by
  simp only [run, h1, h2, h3]
  rfl

/-- Oracles with a usable membership layer but a null manager handle. -/
def envC9a : Env where
  isCloseGraceful := true
  isReady := false
  isCloseLlgr := false
  grFamilies := ∅
  grTime := 120
  llgrTime := 600
  canUse := true
  mgrAvail := false
  tablesEmpty := true
  isPending := false
  elapsed := 0

/-- The same oracles with the manager handle available. -/
def envC9b : Env := { envC9a with mgrAvail := true }

/-- Counterexample for C9 as stated: a non-graceful close whose membership
request finds a null manager handle leaves the manager parked with state
DELETE and membership IN_USE, while the genuinely-empty-table request (same
close, manager available) runs the walk-done callback inline and advances
the cycle to NONE with the membership phase disengaged.  The two behaviours
differ, so the null-handle case is not treated like an empty walk. -/
theorem C9_counterexample :
    runTrace initPCM [Event.close true envC9a] =
      .ok ({ initPCM with state := .DELETE
                          non_graceful := true
                          membership_state := .MEMBERSHIP_IN_USE
                          stats := { init := 1, close := 1, deletes := 1 } },
           [Effect.customClose, Effect.membershipReq]) ∧
    runTrace initPCM [Event.close true envC9b] =
      .ok ({ initPCM with stats := { init := 2, close := 1, deletes := 1 } },
           [Effect.customClose, Effect.membershipReq, Effect.peerDelete]) := by
  constructor <;> decide

/-- Witness for C9 (amended) at a concrete input. -/
theorem C9_witness :
    run (11 + 1) .mri { initPCM with state := .DELETE } envC9a =
      .ok ({ initPCM with state := .DELETE
                          membership_state := .MEMBERSHIP_IN_USE },
           [Effect.membershipReq]) := by
  rw [C9_mgr_null_parks_in_use { initPCM with state := .DELETE } envC9a 11
        (by decide) rfl rfl]

/-! ## Claim C10: stickiness of the non-graceful flag -/

/-- Claim C10: for every call to `close(non_graceful)`, including a
reentrant call that is otherwise ignored because `close_again` is already
true, the argument is ORed into the sticky flag before the nested-close
check (first conjunct: an ignored nested close still retains the OR in its
result, changing nothing else but the close counter); and a latched
non-graceful close is not lost: the `close_complete` restart of the next
cycle takes the DELETE path, incrementing deletes and calling
`custom_close` exactly once (second conjunct). -/
theorem C10_non_graceful_sticky (s : PCM) (g : Bool) (env : Env) (f : Nat) :
    (s.close_again = true →
      step s (.close g env) =
        .ok ({ s with non_graceful := s.non_graceful || g
                      stats := { s.stats with close := s.stats.close + 1 } },
             [])) ∧
    (s.close_again = true → s.non_graceful = true → s.state ≠ .NONE →
      s.membership_state ≠ .MEMBERSHIP_IN_USE →
      ∃ s1 ef, run (f + 1 + 1 + 1 + 1 + 1) .cc s env = .ok (s1, ef) ∧
        s1.stats.deletes = s.stats.deletes + 1 ∧
        List.count Effect.customClose ef = 1) := by
  constructor
  · intro hca
    show run 12 .ci { s with non_graceful := s.non_graceful || g } env = _
    rw [show (12 : Nat) = 11 + 1 from rfl]
    simp only [run, hca]
    rfl
  · intro hca hng hst hms
    simp only [run, moveToState, processClosureDispatch, hca, hng, hst, hms]
    by_cases hcu : env.canUse = true <;>
      by_cases hma : env.mgrAvail = true <;>
        by_cases hte : env.tablesEmpty = true <;>
          by_cases hip : env.isPending = true <;>
            simp [run, hcu, hma, hte, hip, hms, walkDoneGuard, moveToState,
              List.count_cons] <;>
              exact ⟨_, _, ⟨rfl, rfl⟩, rfl, by decide⟩

/-- A manager mid-STALE-walk with a non-graceful close already latched. -/
def sC10 : PCM :=
  { initPCM with state := .STALE, close_again := true, non_graceful := true }

/-- Oracles for the C10 witness. -/
def envC10 : Env where
  isCloseGraceful := true
  isReady := false
  isCloseLlgr := false
  grFamilies := ∅
  grTime := 120
  llgrTime := 600
  canUse := true
  mgrAvail := true
  tablesEmpty := true
  isPending := false
  elapsed := 0

/-- Witness for C10 at a concrete input: an ignored nested close keeps the
ORed flag, and the subsequent restart takes the DELETE path. -/
theorem C10_witness :
    step sC10 (.close false envC10) =
      .ok ({ sC10 with stats := { init := 1, close := 1 } }, []) ∧
    ∃ s1 ef, run (7 + 1 + 1 + 1 + 1 + 1) .cc sC10 envC10 = .ok (s1, ef) ∧
      s1.stats.deletes = sC10.stats.deletes + 1 ∧
      List.count Effect.customClose ef = 1 := by
  have h := C10_non_graceful_sticky sC10 false envC10 7
  constructor
  · rw [h.1 rfl]
    decide
  · exact h.2 rfl rfl (by decide) (by decide)

/-! ## Claim C3: the NONE bookkeeping invariant -/

/-- The inductive invariant of the close state machine: in `NONE` the close
flags and elapsed accumulators are at their initial values (the family set
is NOT included: the DELETE-to-NONE transition does not clear it); in
`SWEEP` the elapsed accumulators are zero (they were reset on entry); and
outside `NONE` and `DELETE` a sticky non-graceful flag always travels with
a latched `close_again` (a non-graceful cycle leaves such states only
through DELETE). -/
def Inv (s : PCM) : Prop :=
  (s.state = .NONE → s.close_again = false ∧ s.non_graceful = false ∧
    s.gr_elapsed = 0 ∧ s.llgr_elapsed = 0) ∧
  (s.state = .SWEEP → s.gr_elapsed = 0 ∧ s.llgr_elapsed = 0) ∧
  (s.state ≠ .NONE → s.state ≠ .DELETE → s.non_graceful = true →
    s.close_again = true)

/-- Precondition under which `CloseInternal` preserves the invariant. -/
def Pci (s : PCM) : Prop :=
  (s.state = .NONE → s.close_again = false) ∧
  (s.state = .SWEEP → s.gr_elapsed = 0 ∧ s.llgr_elapsed = 0)

/-- Precondition under which `ProcessClosure` preserves the invariant. -/
def Ppc (s : PCM) : Prop :=
  (s.state = .GR_TIMER ∨ s.state = .LLGR_TIMER) →
    s.non_graceful = true → s.close_again = true

/-- Precondition under which `CloseComplete` establishes the invariant. -/
def Pcc (s : PCM) : Prop :=
  s.close_again = true ∨
    (s.non_graceful = false ∧ s.gr_elapsed = 0 ∧ s.llgr_elapsed = 0)

/-- The `ProcessClosure` dispatch yields an invariant state. -/
theorem dispatch_inv {s : PCM} {env : Env} {s1 : PCM} {ef1 : List Effect}
    (hP : Ppc s) (h : processClosureDispatch s env = .ok (s1, ef1)) :
    Inv s1 := by
  simp only [Ppc] at hP
  cases hs : s.state
  case NONE =>
    simp only [processClosureDispatch, moveToState, hs] at h
    repeat' split at h
    all_goals simp at h
    all_goals obtain ⟨h1, -⟩ := h
    all_goals subst h1
    all_goals rename_i heqq
    all_goals simp at heqq
    all_goals subst heqq
    all_goals simp_all [Inv]
  case GR_TIMER =>
    simp only [processClosureDispatch, moveToState, hs] at h
    repeat' split at h
    all_goals simp at h
    all_goals obtain ⟨h1, -⟩ := h
    all_goals subst h1
    all_goals rename_i heqq
    all_goals simp at heqq
    all_goals subst heqq
    all_goals simp_all [Inv]
  case LLGR_TIMER =>
    simp only [processClosureDispatch, moveToState, hs] at h
    repeat' split at h
    all_goals simp at h
    all_goals obtain ⟨h1, -⟩ := h
    all_goals subst h1
    all_goals rename_i heqq
    all_goals simp at heqq
    all_goals subst heqq
    all_goals simp_all [Inv]
  all_goals simp only [processClosureDispatch, hs] at h
  all_goals exact Except.noConfusion h

/-- One induction over the fuel: each internal routine preserves the
invariant under its calling precondition. -/
theorem runInv : ∀ f : Nat,
    (∀ s env s2 ef, Pci s → run f .ci s env = .ok (s2, ef) → Inv s2) ∧
    (∀ s env s2 ef, Ppc s → run f .pc s env = .ok (s2, ef) → Inv s2) ∧
    (∀ s env s2 ef, Inv s → run f .mri s env = .ok (s2, ef) → Inv s2) ∧
    (∀ s env s2 ef, Inv s → run f .cbi s env = .ok (s2, ef) → Inv s2) ∧
    (∀ s env s2 ef, Pcc s → run f .cc s env = .ok (s2, ef) → Inv s2) := by
  intro f
  induction f with
  | zero =>
    refine ⟨?_, ?_, ?_, ?_, ?_⟩ <;>
      exact fun s env s2 ef _ h => Except.noConfusion h
  | succ f ih =>
    obtain ⟨ihci, ihpc, ihmri, ihcbi, ihcc⟩ := ih
    refine ⟨?_, ?_, ?_, ?_, ?_⟩
    · -- CloseInternal
      intro s env s2 ef hP h
      unfold run at h
      dsimp only at h
      by_cases hca : s.close_again = true
      · simp only [hca, if_true] at h
        simp at h
        obtain ⟨h1, -⟩ := h
        subst h1
        exact ⟨fun hnone => absurd (hP.1 hnone) (by simp [hca]),
          fun hsw => hP.2 hsw, fun _ _ _ => rfl⟩
      · simp only [hca, if_false] at h
        cases hst : s.state
        · simp only [hst] at h
          exact ihpc _ env s2 ef (by intro hor; simp [hst] at hor) h
        · simp only [hst] at h
          simp at h
          obtain ⟨h1, -⟩ := h
          subst h1
          exact ⟨fun hnone => by simp [hst] at hnone,
            fun hsw => by simp [hst] at hsw, fun _ _ _ => rfl⟩
        · simp only [hst] at h
          exact ihcc _ env s2 ef (Or.inl rfl) h
        · simp only [hst] at h
          simp at h
          obtain ⟨h1, -⟩ := h
          subst h1
          exact ⟨fun hnone => by simp [hst] at hnone,
            fun hsw => by simp [hst] at hsw, fun _ _ _ => rfl⟩
        · simp only [hst] at h
          exact ihcc _ env s2 ef (Or.inl rfl) h
        · simp only [hst] at h
          simp at h
          obtain ⟨h1, -⟩ := h
          subst h1
          exact ⟨fun hnone => by simp [hst] at hnone,
            fun _ => hP.2 hst, fun _ _ _ => rfl⟩
        · simp only [hst] at h
          simp at h
          obtain ⟨h1, -⟩ := h
          subst h1
          exact ⟨fun hnone => by simp [hst] at hnone,
            fun hsw => by simp [hst] at hsw, fun _ _ _ => rfl⟩
    · -- ProcessClosure
      intro s env s2 ef hP h
      unfold run at h
      cases hd : processClosureDispatch s env with
      | error e =>
        rw [hd] at h
        exact Except.noConfusion h
      | ok r =>
        obtain ⟨s1, ef1⟩ := r
        rw [hd] at h
        dsimp only at h
        cases hm : run f .mri s1 env with
        | error e =>
          rw [hm] at h
          exact Except.noConfusion h
        | ok r3 =>
          obtain ⟨s3, ef3⟩ := r3
          rw [hm] at h
          dsimp only at h
          obtain ⟨h1, -⟩ : s3 = s2 ∧ _ = ef := by cases h; exact ⟨rfl, rfl⟩
          subst h1
          exact ihmri s1 env _ ef3 (dispatch_inv hP hd) hm
    · -- MembershipRequestInternal
      intro s env s2 ef hP h
      unfold run at h
      by_cases hms : s.membership_state = .MEMBERSHIP_IN_USE
      · simp [hms] at h
      · simp only [hms, if_neg, if_false] at h
        by_cases hcu : env.canUse = true
        · simp only [hcu] at h
          try dsimp only at h
          by_cases hma : env.mgrAvail = true
          · simp only [hma] at h
            try dsimp only at h
            by_cases hte : env.tablesEmpty = true
            · simp only [hte, if_true] at h
              cases hc : run f .cbi { s with
                  membership_state := .MEMBERSHIP_IN_USE } env with
              | error e =>
                rw [hc] at h
                simp at h
              | ok r =>
                obtain ⟨s3, ef3⟩ := r
                rw [hc] at h
                dsimp only at h
                obtain ⟨h1, -⟩ : s3 = s2 ∧ _ = ef := by cases h; exact ⟨rfl, rfl⟩
                subst h1
                refine ihcbi _ env _ ef3 ?_ hc
                exact hP
            · simp only [hte, if_false] at h
              simp at h
              obtain ⟨h1, -⟩ := h
              subst h1
              exact hP
          · simp only [hma] at h
            simp at h
            obtain ⟨h1, -⟩ := h
            subst h1
            exact hP
        · simp only [hcu] at h
          simp at h
          obtain ⟨h1, -⟩ := h
          subst h1
          exact hP
    · -- MembershipRequestCallbackInternal
      intro s env s2 ef hP h
      unfold run at h
      by_cases hg : walkDoneGuard s.state = true
      case neg => simp [hg] at h
      by_cases hms : s.membership_state = .MEMBERSHIP_IN_USE
      case neg => simp [hg, hms] at h
      by_cases hip : env.isPending = true
      · simp [hg, hms, hip] at h
        obtain ⟨h1, -⟩ := h
        subst h1
        exact hP
      · by_cases hdel : s.state = .DELETE
        · simp [hg, hms, hip, hdel, moveToState, walkDoneGuard, State.toNat] at h
          obtain ⟨h1, -⟩ := h
          subst h1
          exact ⟨fun _ => ⟨rfl, rfl, rfl, rfl⟩,
            fun hsw => by simp at hsw, fun hne _ _ => absurd rfl hne⟩
        · by_cases hca : s.close_again = true
          · simp [hg, hms, hip, hdel, hca, walkDoneGuard, State.toNat] at h
            exact ihcc _ env s2 ef (Or.inl rfl) h
          · by_cases hstale : s.state = .STALE
            · simp [hg, hms, hip, hdel, hca, hstale, moveToState,
                startRestartTimer, walkDoneGuard, State.toNat] at h
              obtain ⟨h1, -⟩ := h
              subst h1
              refine ⟨fun hnone => by simp at hnone,
                fun hsw => by simp at hsw, fun _ _ hng => ?_⟩
              exact absurd (hP.2.2 (by simp [hstale]) (by simp [hstale]) hng)
                (by simpa using hca)
            · by_cases hllgr : s.state = .LLGR_STALE
              · simp [hg, hms, hip, hdel, hca, hstale, hllgr, moveToState,
                  startRestartTimer, walkDoneGuard, State.toNat] at h
                obtain ⟨h1, -⟩ := h
                subst h1
                refine ⟨fun hnone => by simp at hnone,
                  fun hsw => by simp at hsw, fun _ _ hng => ?_⟩
                exact absurd (hP.2.2 (by simp [hllgr]) (by simp [hllgr]) hng)
                  (by simpa using hca)
              · simp [hg, hms, hip, hdel, hca, hstale, hllgr, walkDoneGuard,
                  State.toNat] at h
                obtain ⟨h1, -⟩ := h
                subst h1
                refine ⟨fun hnone => ⟨rfl, (hP.1 hnone).2.1,
                    (hP.1 hnone).2.2.1, (hP.1 hnone).2.2.2⟩,
                  fun hsw => hP.2.1 hsw, fun hne hnd hng => ?_⟩
                exact absurd (hP.2.2 hne hnd hng) (by simpa using hca)
    · -- CloseComplete
      intro s env s2 ef hP h
      unfold run at h
      by_cases hnone : s.state = .NONE
      · simp [moveToState, hnone] at h
      · simp only [moveToState, hnone, if_neg, if_false] at h
        try dsimp only at h
        by_cases hca : s.close_again = true
        · simp only [hca, if_true] at h
          cases hc : run f .ci { s with
              state := .NONE
              close_again := false
              stale_timer := { s.stale_timer with armed := false }
              sweep_timer := { s.sweep_timer with armed := false }
              families := ∅
              stats := { s.stats with init := s.stats.init + 1 } } env with
          | error e =>
            rw [hc] at h
            simp at h
          | ok r =>
            obtain ⟨s3, ef3⟩ := r
            rw [hc] at h
            dsimp only at h
            obtain ⟨h1, -⟩ : s3 = s2 ∧ _ = ef := by cases h; exact ⟨rfl, rfl⟩
            subst h1
            exact ihci _ env _ ef3
              ⟨fun _ => rfl, fun hsw => by simp at hsw⟩ hc
        · simp only [hca, if_false] at h
          simp at h
          obtain ⟨h1, -⟩ := h
          subst h1
          rcases hP with hP | ⟨hng, hge, hle⟩
          · exact absurd hP hca
          · exact ⟨fun _ => ⟨by simp [hca], hng, hge, hle⟩,
              fun hsw => by simp at hsw, fun hne _ _ => absurd rfl hne⟩

/-- EoR processing only touches the family set and the restart timer, so it
preserves the invariant. -/
theorem eor_inv {s : PCM} {family : Nat} (hP : Inv s) :
    Inv (processEorMarkerReceived s family) := by
  unfold processEorMarkerReceived startRestartTimer
  split
  · dsimp only
    repeat' split
    all_goals exact hP
  · exact hP

/-- Every event handler preserves the invariant. -/
theorem step_inv {s : PCM} {e : Event} {s2 : PCM} {ef : List Effect}
    (hP : Inv s) (h : step s e = .ok (s2, ef)) : Inv s2 := by
  cases e with
  | close g env =>
    simp only [step] at h
    refine (runInv fuelN).1 _ env s2 ef ?_ h
    exact ⟨fun hnone => (hP.1 hnone).1, fun hsw => hP.2.1 hsw⟩
  | eor family =>
    simp only [step] at h
    obtain ⟨h1, -⟩ : processEorMarkerReceived s family = s2 ∧ [] = ef := by
      cases h; exact ⟨rfl, rfl⟩
    subst h1
    exact eor_inv hP
  | restartTimerFired env =>
    simp only [step] at h
    by_cases harm : s.stale_timer.armed = false
    · simp only [harm, if_true] at h
      obtain ⟨h1, -⟩ : s = s2 ∧ [] = ef := by cases h; exact ⟨rfl, rfl⟩
      subst h1
      exact hP
    · simp only [harm, if_false] at h
      by_cases hcond : s.state = .GR_TIMER ∨ s.state = .LLGR_TIMER
      · rw [if_pos hcond] at h
        refine (runInv fuelN).2.1 _ env s2 ef ?_ h
        intro hor hng
        exact hP.2.2
          (by rcases hor with h' | h' <;> simp [show s.state = _ from h'])
          (by rcases hor with h' | h' <;> simp [show s.state = _ from h'])
          hng
      · rw [if_neg hcond] at h
        obtain ⟨h1, -⟩ :
            ({ s with stale_timer := { s.stale_timer with armed := false } } : PCM)
              = s2 ∧ [] = ef := by
          cases h; exact ⟨rfl, rfl⟩
        subst h1
        exact hP
  | sweepTimerFired env =>
    simp only [step] at h
    by_cases harm : s.sweep_timer.armed = false
    · simp only [harm, if_true] at h
      obtain ⟨h1, -⟩ : s = s2 ∧ [] = ef := by cases h; exact ⟨rfl, rfl⟩
      subst h1
      exact hP
    · simp only [harm, if_false] at h
      by_cases hsw : s.state = .SWEEP
      · rw [if_pos hsw] at h
        cases hc : run fuelN .cc
            { s with sweep_timer := { s.sweep_timer with armed := false } } env with
        | error e =>
          rw [hc] at h
          exact Except.noConfusion h
        | ok r =>
          obtain ⟨s3, ef3⟩ := r
          rw [hc] at h
          dsimp only at h
          obtain ⟨h1, -⟩ : s3 = s2 ∧ _ = ef := by cases h; exact ⟨rfl, rfl⟩
          subst h1
          refine (runInv fuelN).2.2.2.2 _ env _ ef3 ?_ hc
          by_cases hca : s.close_again = true
          · exact Or.inl hca
          · refine Or.inr ⟨?_, (hP.2.1 hsw).1, (hP.2.1 hsw).2⟩
            by_cases hng : s.non_graceful = true
            · exact absurd
                (hP.2.2 (by simp [hsw]) (by simp [hsw]) hng)
                hca
            · simpa using hng
      · rw [if_neg hsw] at h
        exact Except.noConfusion h
  | walkDone env =>
    simp only [step] at h
    exact (runInv fuelN).2.2.2.1 _ env s2 ef hP h
  | membershipReqEvt env =>
    simp only [step] at h
    exact (runInv fuelN).2.2.1 _ env s2 ef hP h

/-- Every reachable state satisfies the invariant. -/
theorem reachable_inv {s : PCM} (h : Reachable s) : Inv s := by
  induction h with
  | init =>
    exact ⟨fun _ => ⟨rfl, rfl, rfl, rfl⟩, fun hsw => absurd hsw (by decide),
      fun hne _ _ => absurd rfl hne⟩
  | next hr hstep ih => exact step_inv ih hstep

/-- Claim C3 (amended): after every handler returns, a manager in state NONE
has close_again false, non_graceful false and both elapsed accumulators
zero.  The family set is excluded (the DELETE path into NONE leaves it
populated) and the reverse implication does not hold (a freshly started
cycle has all bookkeeping still at its initial values while the state is
already STALE); both failures are exhibited by `C3_counterexample`. -/
theorem C3_none_resets {s : PCM} (h : Reachable s) (hn : s.state = .NONE) :
    s.close_again = false ∧ s.non_graceful = false ∧
    s.gr_elapsed = 0 ∧ s.llgr_elapsed = 0 :=
  (reachable_inv h).1 hn

/-- Witness for C3 (amended) at the initial state. -/
theorem C3_witness :
    initPCM.close_again = false ∧ initPCM.non_graceful = false ∧
    initPCM.gr_elapsed = 0 ∧ initPCM.llgr_elapsed = 0 :=
  C3_none_resets Reachable.init rfl

/-- Oracles for the C3 counterexample: GR negotiated with one family, no
registered tables, peer never comes back, no LLGR. -/
def envC3a : Env where
  isCloseGraceful := true
  isReady := false
  isCloseLlgr := false
  grFamilies := ({1} : Finset Nat)
  grTime := 120
  llgrTime := 600
  canUse := true
  mgrAvail := true
  tablesEmpty := true
  isPending := false
  elapsed := 0

/-- The same oracles with registered tables present. -/
def envC3b : Env := { envC3a with tablesEmpty := false }

/-- After close, GR expiry and the DELETE walk: state NONE with the family
set still populated. -/
def sC3a : PCM where
  state := .NONE
  close_again := false
  non_graceful := false
  gr_elapsed := 0
  llgr_elapsed := 0
  families := ({1} : Finset Nat)
  membership_state := .MEMBERSHIP_NONE
  stats := { init := 2, close := 1, deletes := 1, stale := 1, gr_timer := 1 }
  stale_timer := { armed := false, delay := 120000 }
  sweep_timer := {}

/-- After a close whose STALE walk is still pending: state STALE with every
bookkeeping field still at its initial value. -/
def sC3b : PCM where
  state := .STALE
  close_again := false
  non_graceful := false
  gr_elapsed := 0
  llgr_elapsed := 0
  families := ∅
  membership_state := .MEMBERSHIP_IN_USE
  stats := { init := 1, close := 1, stale := 1 }
  stale_timer := {}
  sweep_timer := {}

/-- Counterexample for C3 as stated: the claimed equivalence
`state = NONE ↔ close_again = false ∧ non_graceful = false ∧ gr_elapsed = 0
∧ llgr_elapsed = 0 ∧ families = ∅` fails in both directions on reachable
post-handler states.  After `close(false)`, GR-timer expiry and the inline
DELETE walk, the state is NONE but `families` is still `{1}` (the
DELETE-to-NONE transition never clears it); after a `close(false)` whose
STALE walk is pending, every flag and accumulator is initial and `families`
empty while the state is STALE. -/
theorem C3_counterexample :
    runTrace initPCM [Event.close false envC3a, Event.restartTimerFired envC3a] =
      .ok (sC3a, [Effect.gracefulRestartStale, Effect.membershipReq,
        Effect.peerCloseComplete, Effect.customClose, Effect.membershipReq,
        Effect.peerDelete]) ∧
    ¬(sC3a.state = .NONE ↔ (sC3a.close_again = false ∧
      sC3a.non_graceful = false ∧ sC3a.gr_elapsed = 0 ∧
      sC3a.llgr_elapsed = 0 ∧ sC3a.families = ∅)) ∧
    runTrace initPCM [Event.close false envC3b] =
      .ok (sC3b, [Effect.gracefulRestartStale, Effect.membershipReq,
        Effect.membershipWalk]) ∧
    ¬(sC3b.state = .NONE ↔ (sC3b.close_again = false ∧
      sC3b.non_graceful = false ∧ sC3b.gr_elapsed = 0 ∧
      sC3b.llgr_elapsed = 0 ∧ sC3b.families = ∅)) := by
  refine ⟨by decide, by decide, by decide, by decide⟩

/-! ## Claim C8: the close counter -/

/-- The `ProcessClosure` dispatch never touches the close counter. -/
theorem dispatch_close {s : PCM} {env : Env} {s1 : PCM} {ef1 : List Effect}
    (h : processClosureDispatch s env = .ok (s1, ef1)) :
    s1.stats.close = s.stats.close := by
  cases hs : s.state
  case NONE =>
    simp only [processClosureDispatch, moveToState, hs] at h
    repeat' split at h
    all_goals simp at h
    all_goals obtain ⟨h1, -⟩ := h
    all_goals subst h1
    all_goals rename_i heqq
    all_goals simp at heqq
    all_goals subst heqq
    all_goals rfl
  case GR_TIMER =>
    simp only [processClosureDispatch, moveToState, hs] at h
    repeat' split at h
    all_goals simp at h
    all_goals obtain ⟨h1, -⟩ := h
    all_goals subst h1
    all_goals rename_i heqq
    all_goals simp at heqq
    all_goals subst heqq
    all_goals rfl
  case LLGR_TIMER =>
    simp only [processClosureDispatch, moveToState, hs] at h
    repeat' split at h
    all_goals simp at h
    all_goals obtain ⟨h1, -⟩ := h
    all_goals subst h1
    all_goals rename_i heqq
    all_goals simp at heqq
    all_goals subst heqq
    all_goals rfl
  all_goals simp only [processClosureDispatch, hs] at h
  all_goals exact Except.noConfusion h

/-- One induction over the fuel: the close counter advances by exactly one
per entry into `CloseInternal`, and entries are the external call plus one
`cycleRestart` effect per nested restart performed by `CloseComplete`. -/
theorem runCloseCount : ∀ f : Nat,
    (∀ s env s2 ef, run f .ci s env = .ok (s2, ef) →
      s2.stats.close = s.stats.close + 1 + List.count Effect.cycleRestart ef) ∧
    (∀ s env s2 ef, run f .pc s env = .ok (s2, ef) →
      s2.stats.close = s.stats.close + List.count Effect.cycleRestart ef) ∧
    (∀ s env s2 ef, run f .mri s env = .ok (s2, ef) →
      s2.stats.close = s.stats.close + List.count Effect.cycleRestart ef) ∧
    (∀ s env s2 ef, run f .cbi s env = .ok (s2, ef) →
      s2.stats.close = s.stats.close + List.count Effect.cycleRestart ef) ∧
    (∀ s env s2 ef, run f .cc s env = .ok (s2, ef) →
      s2.stats.close = s.stats.close + List.count Effect.cycleRestart ef) := by
  intro f
  induction f with
  | zero =>
    refine ⟨?_, ?_, ?_, ?_, ?_⟩ <;>
      exact fun s env s2 ef h => Except.noConfusion h
  | succ f ih =>
    obtain ⟨ihci, ihpc, ihmri, ihcbi, ihcc⟩ := ih
    refine ⟨?_, ?_, ?_, ?_, ?_⟩
    · -- CloseInternal
      intro s env s2 ef h
      unfold run at h
      dsimp only at h
      by_cases hca : s.close_again = true
      · simp [hca] at h
        obtain ⟨h1, h2⟩ := h
        subst h1
        subst h2
        simp
      · simp only [hca, if_false] at h
        cases hst : s.state
        · simp only [hst] at h
          have := ihpc _ env s2 ef h
          simpa using this
        · simp only [hst] at h
          simp at h
          obtain ⟨h1, h2⟩ := h
          subst h1
          subst h2
          simp
        · simp only [hst] at h
          have := ihcc _ env s2 ef h
          simpa using this
        · simp only [hst] at h
          simp at h
          obtain ⟨h1, h2⟩ := h
          subst h1
          subst h2
          simp
        · simp only [hst] at h
          have := ihcc _ env s2 ef h
          simpa using this
        · simp only [hst] at h
          simp at h
          obtain ⟨h1, h2⟩ := h
          subst h1
          subst h2
          simp
        · simp only [hst] at h
          simp at h
          obtain ⟨h1, h2⟩ := h
          subst h1
          subst h2
          simp
    · -- ProcessClosure
      intro s env s2 ef h
      unfold run at h
      cases hd : processClosureDispatch s env with
      | error e =>
        rw [hd] at h
        exact Except.noConfusion h
      | ok r =>
        obtain ⟨s1, ef1⟩ := r
        rw [hd] at h
        dsimp only at h
        cases hm : run f .mri s1 env with
        | error e =>
          rw [hm] at h
          exact Except.noConfusion h
        | ok r3 =>
          obtain ⟨s3, ef3⟩ := r3
          rw [hm] at h
          dsimp only at h
          obtain ⟨h1, h2⟩ : s3 = s2 ∧
              ef1 ++ (if s1.state = .DELETE then [Effect.customClose] else [])
                ++ ef3 = ef := by cases h; exact ⟨rfl, rfl⟩
          subst h1
          have hc := ihmri s1 env _ ef3 hm
          rw [hc, dispatch_close hd, ← h2]
          rcases processClosureDispatch_effects hd with rfl | rfl <;>
            by_cases hds : s1.state = .DELETE <;>
              simp [hds, List.count_append]
    · -- MembershipRequestInternal
      intro s env s2 ef h
      unfold run at h
      by_cases hms : s.membership_state = .MEMBERSHIP_IN_USE
      · simp [hms] at h
      · simp only [hms, if_neg, if_false] at h
        by_cases hcu : env.canUse = true
        · simp only [hcu] at h
          try dsimp only at h
          by_cases hma : env.mgrAvail = true
          · simp only [hma] at h
            try dsimp only at h
            by_cases hte : env.tablesEmpty = true
            · simp only [hte, if_true] at h
              cases hc : run f .cbi { s with
                  membership_state := .MEMBERSHIP_IN_USE } env with
              | error e =>
                rw [hc] at h
                simp at h
              | ok r =>
                obtain ⟨s3, ef3⟩ := r
                rw [hc] at h
                dsimp only at h
                obtain ⟨h1, h2⟩ : s3 = s2 ∧
                    Effect.membershipReq :: ef3 = ef := by
                  cases h; exact ⟨rfl, rfl⟩
                subst h1
                have := ihcbi _ env _ ef3 hc
                rw [this, ← h2]
                simp
            · simp only [hte, if_false] at h
              simp at h
              obtain ⟨h1, h2⟩ := h
              subst h1
              subst h2
              simp
          · simp only [hma] at h
            simp at h
            obtain ⟨h1, h2⟩ := h
            subst h1
            subst h2
            simp
        · simp only [hcu] at h
          simp at h
          obtain ⟨h1, h2⟩ := h
          subst h1
          subst h2
          simp
    · -- MembershipRequestCallbackInternal
      intro s env s2 ef h
      unfold run at h
      by_cases hg : walkDoneGuard s.state = true
      case neg => simp [hg] at h
      by_cases hms : s.membership_state = .MEMBERSHIP_IN_USE
      case neg => simp [hg, hms] at h
      by_cases hip : env.isPending = true
      · simp [hg, hms, hip] at h
        obtain ⟨h1, h2⟩ := h
        subst h1
        subst h2
        simp
      · by_cases hdel : s.state = .DELETE
        · simp [hg, hms, hip, hdel, moveToState, walkDoneGuard,
            State.toNat] at h
          obtain ⟨h1, h2⟩ := h
          subst h1
          subst h2
          simp
        · by_cases hca : s.close_again = true
          · simp [hg, hms, hip, hdel, hca, walkDoneGuard, State.toNat] at h
            have := ihcc _ env s2 ef h
            simpa using this
          · by_cases hstale : s.state = .STALE
            · simp [hg, hms, hip, hdel, hca, hstale, moveToState,
                startRestartTimer, walkDoneGuard, State.toNat] at h
              obtain ⟨h1, h2⟩ := h
              subst h1
              subst h2
              simp
            · by_cases hllgr : s.state = .LLGR_STALE
              · simp [hg, hms, hip, hdel, hca, hstale, hllgr, moveToState,
                  startRestartTimer, walkDoneGuard, State.toNat] at h
                obtain ⟨h1, h2⟩ := h
                subst h1
                subst h2
                simp
              · simp [hg, hms, hip, hdel, hca, hstale, hllgr, walkDoneGuard,
                  State.toNat] at h
                obtain ⟨h1, h2⟩ := h
                subst h1
                subst h2
                simp
    · -- CloseComplete
      intro s env s2 ef h
      unfold run at h
      by_cases hnone : s.state = .NONE
      · simp [moveToState, hnone] at h
      · simp only [moveToState, hnone, if_neg, if_false] at h
        try dsimp only at h
        by_cases hca : s.close_again = true
        · simp only [hca, if_true] at h
          cases hc : run f .ci { s with
              state := .NONE
              close_again := false
              stale_timer := { s.stale_timer with armed := false }
              sweep_timer := { s.sweep_timer with armed := false }
              families := ∅
              stats := { s.stats with init := s.stats.init + 1 } } env with
          | error e =>
            rw [hc] at h
            simp at h
          | ok r =>
            obtain ⟨s3, ef3⟩ := r
            rw [hc] at h
            dsimp only at h
            obtain ⟨h1, h2⟩ : s3 = s2 ∧ Effect.cycleRestart :: ef3 = ef := by
              cases h; exact ⟨rfl, rfl⟩
            subst h1
            have := ihci _ env _ ef3 hc
            rw [this, ← h2]
            simp [List.count_cons]
            omega
        · simp only [hca, if_false] at h
          simp at h
          obtain ⟨h1, h2⟩ := h
          subst h1
          subst h2
          simp

/-- EoR processing never touches the statistics. -/
theorem eor_stats (s : PCM) (family : Nat) :
    (processEorMarkerReceived s family).stats = s.stats := by
  unfold processEorMarkerReceived startRestartTimer
  split
  · dsimp only
    repeat' split
    all_goals rfl
  · rfl

/-- Whether an event is an external `Close` invocation. -/
def isCloseEvent : Event → Bool
  | .close _ _ => true
  | _ => false

/-- Per event: the close counter advances by one for an external close plus
one per `cycleRestart` effect. -/
theorem step_close_count {s : PCM} {e : Event} {s2 : PCM} {ef : List Effect}
    (h : step s e = .ok (s2, ef)) :
    s2.stats.close = s.stats.close + (if isCloseEvent e then 1 else 0) +
      List.count Effect.cycleRestart ef := by
  cases e with
  | close g env =>
    simp only [step] at h
    have hc := (runCloseCount fuelN).1 _ env s2 ef h
    simpa [isCloseEvent] using hc
  | eor family =>
    simp only [step] at h
    obtain ⟨h1, h2⟩ : processEorMarkerReceived s family = s2 ∧ [] = ef := by
      cases h; exact ⟨rfl, rfl⟩
    subst h1
    subst h2
    simp [isCloseEvent, eor_stats]
  | restartTimerFired env =>
    simp only [step] at h
    by_cases harm : s.stale_timer.armed = false
    · simp only [harm, if_true] at h
      obtain ⟨h1, h2⟩ : s = s2 ∧ [] = ef := by cases h; exact ⟨rfl, rfl⟩
      subst h1
      subst h2
      simp [isCloseEvent]
    · simp only [harm, if_false] at h
      by_cases hcond : s.state = .GR_TIMER ∨ s.state = .LLGR_TIMER
      · rw [if_pos hcond] at h
        have hc := (runCloseCount fuelN).2.1 _ env s2 ef h
        simpa [isCloseEvent] using hc
      · rw [if_neg hcond] at h
        obtain ⟨h1, h2⟩ :
            ({ s with stale_timer := { s.stale_timer with armed := false } } : PCM)
              = s2 ∧ [] = ef := by
          cases h; exact ⟨rfl, rfl⟩
        subst h1
        subst h2
        simp [isCloseEvent]
  | sweepTimerFired env =>
    simp only [step] at h
    by_cases harm : s.sweep_timer.armed = false
    · simp only [harm, if_true] at h
      obtain ⟨h1, h2⟩ : s = s2 ∧ [] = ef := by cases h; exact ⟨rfl, rfl⟩
      subst h1
      subst h2
      simp [isCloseEvent]
    · simp only [harm, if_false] at h
      by_cases hsw : s.state = .SWEEP
      · rw [if_pos hsw] at h
        cases hc : run fuelN .cc
            { s with sweep_timer := { s.sweep_timer with armed := false } } env with
        | error e =>
          rw [hc] at h
          exact Except.noConfusion h
        | ok r =>
          obtain ⟨s3, ef3⟩ := r
          rw [hc] at h
          dsimp only at h
          obtain ⟨h1, h2⟩ : s3 = s2 ∧ Effect.gracefulRestartSweep :: ef3 = ef := by
            cases h; exact ⟨rfl, rfl⟩
          subst h1
          subst h2
          have hcc := (runCloseCount fuelN).2.2.2.2 _ env _ ef3 hc
          simpa [isCloseEvent, List.count_cons] using hcc
      · rw [if_neg hsw] at h
        exact Except.noConfusion h
  | walkDone env =>
    simp only [step] at h
    have hc := (runCloseCount fuelN).2.2.2.1 _ env s2 ef h
    simpa [isCloseEvent] using hc
  | membershipReqEvt env =>
    simp only [step] at h
    have hc := (runCloseCount fuelN).2.2.1 _ env s2 ef h
    simpa [isCloseEvent] using hc

/-- Number of external `close()` invocations in a trace. -/
def countCloseEvents (tr : List Event) : Nat :=
  List.countP (fun e => isCloseEvent e) tr

/-- Over a whole trace: the close counter advances by the number of
external closes plus the number of internal cycle restarts. -/
theorem runTrace_close_count {tr : List Event} : ∀ {s s2 : PCM}
    {ef : List Effect}, runTrace s tr = .ok (s2, ef) →
    s2.stats.close = s.stats.close + countCloseEvents tr +
      List.count Effect.cycleRestart ef := by
  induction tr with
  | nil =>
    intro s s2 ef h
    obtain ⟨h1, h2⟩ : s = s2 ∧ [] = ef := by cases h; exact ⟨rfl, rfl⟩
    subst h1
    subst h2
    simp [countCloseEvents]
  | cons e rest ih =>
    intro s s2 ef h
    simp only [runTrace] at h
    split at h
    · exact absurd h (by simp)
    next s1 ef1 hstep =>
      split at h
      · exact absurd h (by simp)
      next s3 ef3 hrest =>
        obtain ⟨h1, h2⟩ : s3 = s2 ∧ ef1 ++ ef3 = ef := by
          cases h; exact ⟨rfl, rfl⟩
        subst h1
        subst h2
        have e1 := step_close_count hstep
        have e2 := ih hrest
        rw [e2, e1]
        simp only [countCloseEvents, List.countP_cons, List.count_append]
        rcases e with _ | _ | _ | _ | _ | _ <;> simp [isCloseEvent] <;> omega

/-- Claim C8 (amended): at every observation point the close counter equals
the number of external `close()` invocations plus the number of internal
cycle restarts performed by `close_complete` (each restart re-enters
`close_internal`, whose first statement increments the counter; the
increment also precedes the nested-close check, so ignored nested calls
count as well). -/
theorem C8_close_counter (tr : List Event) (s2 : PCM) (ef : List Effect)
    (h : runTrace initPCM tr = .ok (s2, ef)) :
    s2.stats.close = countCloseEvents tr +
      List.count Effect.cycleRestart ef := by
  have hc := runTrace_close_count h
  simpa [initPCM] using hc

/-- Oracles for the C8 trace: GR negotiated, no registered tables. -/
def envC8a : Env where
  isCloseGraceful := true
  isReady := false
  isCloseLlgr := false
  grFamilies := ∅
  grTime := 120
  llgrTime := 600
  canUse := true
  mgrAvail := true
  tablesEmpty := true
  isPending := false
  elapsed := 0

/-- The same oracles with 30000 ms elapsed on the restart timer. -/
def envC8b : Env := { envC8a with elapsed := 30000 }

/-- The state after two external closes: the second close arrives in
GR_TIMER and internally restarts the cycle, re-entering `close_internal`. -/
def sC8 : PCM where
  state := .GR_TIMER
  close_again := false
  non_graceful := false
  gr_elapsed := 30000
  llgr_elapsed := 0
  families := ∅
  membership_state := .MEMBERSHIP_NONE
  stats := { init := 2, close := 3, nested := 1, stale := 2, gr_timer := 2 }
  stale_timer := { armed := true, delay := 90000 }
  sweep_timer := {}

/-- Counterexample for C8 as stated: after exactly two external `close()`
invocations the close counter reads 3, because the nested close in GR_TIMER
restarts the cycle through `close_complete`, which re-enters
`close_internal` and increments the counter again. -/
theorem C8_counterexample :
    runTrace initPCM [Event.close false envC8a, Event.close false envC8b] =
      .ok (sC8, [Effect.gracefulRestartStale, Effect.membershipReq,
        Effect.peerCloseComplete, Effect.cycleRestart,
        Effect.gracefulRestartStale, Effect.membershipReq,
        Effect.peerCloseComplete]) ∧
    countCloseEvents [Event.close false envC8a, Event.close false envC8b] = 2 ∧
    sC8.stats.close = 3 ∧ sC8.stats.close ≠ 2 := by
  refine ⟨by decide, by decide, rfl, by decide⟩

/-- Witness for C8 (amended) at the concrete two-close trace: 3 = 2 + 1. -/
theorem C8_witness : sC8.stats.close = 2 + 1 := by
  have h := C8_close_counter
    [Event.close false envC8a, Event.close false envC8b]
    sC8
    [Effect.gracefulRestartStale, Effect.membershipReq,
      Effect.peerCloseComplete, Effect.cycleRestart,
      Effect.gracefulRestartStale, Effect.membershipReq,
      Effect.peerCloseComplete]
    (by decide)
  rw [h]
  decide

/-! ## Sufficiency of the fuel

The event dispatcher hands `run` the fuel `fuelN = 12`.  The following chain
of lemmas shows no event handler can exhaust it, so the `fuelOut` error of
the embedding never occurs: the only cycle in the call graph runs through
the `close_again` restart of `CloseComplete`, which re-enters
`CloseInternal` with `close_again` cleared and the state at `NONE`, and from
there the chain reaches the walk-done callback with `close_again` still
false, where it stops. -/

/-- The dispatch of `ProcessClosure` never changes `close_again`. -/
theorem dispatch_close_again {s : PCM} {env : Env} {s1 : PCM}
    {ef1 : List Effect} (h : processClosureDispatch s env = .ok (s1, ef1)) :
    s1.close_again = s.close_again := by
  cases hs : s.state
  case NONE =>
    simp only [processClosureDispatch, moveToState, hs] at h
    repeat' split at h
    all_goals simp at h
    all_goals obtain ⟨h1, -⟩ := h
    all_goals subst h1
    all_goals rename_i heqq
    all_goals simp at heqq
    all_goals subst heqq
    all_goals rfl
  case GR_TIMER =>
    simp only [processClosureDispatch, moveToState, hs] at h
    repeat' split at h
    all_goals simp at h
    all_goals obtain ⟨h1, -⟩ := h
    all_goals subst h1
    all_goals rename_i heqq
    all_goals simp at heqq
    all_goals subst heqq
    all_goals rfl
  case LLGR_TIMER =>
    simp only [processClosureDispatch, moveToState, hs] at h
    repeat' split at h
    all_goals simp at h
    all_goals obtain ⟨h1, -⟩ := h
    all_goals subst h1
    all_goals rename_i heqq
    all_goals simp at heqq
    all_goals subst heqq
    all_goals rfl
  all_goals simp only [processClosureDispatch, hs] at h
  all_goals exact Except.noConfusion h

/-- The `ProcessClosure` dispatch only fails on assertions, never on fuel. -/
theorem dispatch_no_fuelOut (s : PCM) (env : Env) :
    processClosureDispatch s env ≠ .error .fuelOut := by
  intro hx
  unfold processClosureDispatch moveToState at hx
  repeat' split at hx
  all_goals simp_all

/-- The walk-done callback with no latched close performs no restart, so
one unit of fuel suffices. -/
theorem cbi_no_fuelOut {f : Nat} {s : PCM} {env : Env}
    (hca : s.close_again = false) :
    run (f + 1) .cbi s env ≠ .error .fuelOut := by
  intro hx
  unfold run at hx
  repeat' split at hx
  all_goals try simp_all
  all_goals (by_cases hdel : s.state = .DELETE <;>
    by_cases hstale : s.state = .STALE <;>
      by_cases hllgr : s.state = .LLGR_STALE <;>
        simp_all [moveToState])

/-- `MembershipRequestInternal` with no latched close never exhausts two
units of fuel. -/
theorem mri_no_fuelOut {f : Nat} {s : PCM} {env : Env}
    (hca : s.close_again = false) :
    run (f + 1 + 1) .mri s env ≠ .error .fuelOut := by
  intro hx
  unfold run at hx
  repeat' split at hx
  all_goals try simp_all
  all_goals (
    cases hr : run (f + 1) .cbi
        { s with close_again := false
                 membership_state := .MEMBERSHIP_IN_USE } env with
    | error e2 =>
      rw [hr] at hx
      dsimp only at hx
      injection hx with hxx
      subst hxx
      exact cbi_no_fuelOut rfl hr
    | ok r =>
      rw [hr] at hx
      exact Except.noConfusion hx)

/-- `ProcessClosure` with no latched close never exhausts three units of
fuel. -/
theorem pc_no_fuelOut {f : Nat} {s : PCM} {env : Env}
    (hca : s.close_again = false) :
    run (f + 1 + 1 + 1) .pc s env ≠ .error .fuelOut := by
  intro hx
  unfold run at hx
  cases hd : processClosureDispatch s env with
  | error e =>
    rw [hd] at hx
    dsimp only at hx
    injection hx with hxx
    subst hxx
    exact dispatch_no_fuelOut s env hd
  | ok r =>
    obtain ⟨s1, ef1⟩ := r
    rw [hd] at hx
    dsimp only at hx
    cases hm : run (f + 1 + 1) .mri s1 env with
    | error e =>
      rw [hm] at hx
      dsimp only at hx
      injection hx with hxx
      subst hxx
      exact mri_no_fuelOut (by rw [dispatch_close_again hd]; exact hca) hm
    | ok r3 =>
      rw [hm] at hx
      exact Except.noConfusion hx

/-- `CloseInternal` entered in state NONE with no latched close never
exhausts four units of fuel. -/
theorem ci_none_no_fuelOut {f : Nat} {s : PCM} {env : Env}
    (hca : s.close_again = false) (hst : s.state = .NONE) :
    run (f + 1 + 1 + 1 + 1) .ci s env ≠ .error .fuelOut := by
  intro hx
  unfold run at hx
  dsimp only at hx
  simp only [hca, hst] at hx
  simp only [Bool.false_eq_true, if_false] at hx
  exact pc_no_fuelOut rfl hx

/-- `CloseComplete` never exhausts five units of fuel: its restart
re-enters `CloseInternal` in state NONE with `close_again` cleared. -/
theorem cc_no_fuelOut {f : Nat} {s : PCM} {env : Env} :
    run (f + 1 + 1 + 1 + 1 + 1) .cc s env ≠ .error .fuelOut := by
  intro hx
  unfold run at hx
  by_cases hnone : s.state = .NONE
  · simp [moveToState, hnone] at hx
  · simp only [moveToState, hnone, if_neg, if_false] at hx
    try dsimp only at hx
    by_cases hca : s.close_again = true
    · simp only [hca, if_true] at hx
      cases hc : run (f + 1 + 1 + 1 + 1) .ci { s with
          state := .NONE
          close_again := false
          stale_timer := { s.stale_timer with armed := false }
          sweep_timer := { s.sweep_timer with armed := false }
          families := ∅
          stats := { s.stats with init := s.stats.init + 1 } } env with
      | error e =>
        rw [hc] at hx
        dsimp only at hx
        injection hx with hxx
        subst hxx
        exact ci_none_no_fuelOut rfl rfl hc
      | ok r =>
        rw [hc] at hx
        exact Except.noConfusion hx
    · simp [hca] at hx

/-- `CloseInternal` never exhausts six units of fuel. -/
theorem ci_no_fuelOut {f : Nat} {s : PCM} {env : Env} :
    run (f + 1 + 1 + 1 + 1 + 1 + 1) .ci s env ≠ .error .fuelOut := by
  intro hx
  unfold run at hx
  dsimp only at hx
  by_cases hca : s.close_again = true
  · simp [hca] at hx
  · cases hst : s.state
    · simp only [hca, hst] at hx
      simp only [Bool.false_eq_true, if_false] at hx
      exact pc_no_fuelOut rfl hx
    · simp [hca, hst] at hx
    · simp only [hca, hst] at hx
      simp only [Bool.false_eq_true, if_false] at hx
      exact cc_no_fuelOut hx
    · simp [hca, hst] at hx
    · simp only [hca, hst] at hx
      simp only [Bool.false_eq_true, if_false] at hx
      exact cc_no_fuelOut hx
    · simp [hca, hst] at hx
    · simp [hca, hst] at hx

/-- The walk-done callback never exhausts six units of fuel. -/
theorem cbi_any_no_fuelOut {f : Nat} {s : PCM} {env : Env} :
    run (f + 1 + 1 + 1 + 1 + 1 + 1) .cbi s env ≠ .error .fuelOut := by
  by_cases hca : s.close_again = true
  · intro hx
    unfold run at hx
    by_cases hg : walkDoneGuard s.state = true
    case neg => simp [hg] at hx
    by_cases hms : s.membership_state = .MEMBERSHIP_IN_USE
    case neg => simp [hg, hms] at hx
    by_cases hip : env.isPending = true
    · simp [hg, hms, hip] at hx
    · by_cases hdel : s.state = .DELETE
      · simp [hg, hms, hip, hdel, moveToState, walkDoneGuard,
          State.toNat] at hx
      · simp [hg, hms, hip, hdel, hca, walkDoneGuard, State.toNat] at hx
        exact cc_no_fuelOut hx
  · exact cbi_no_fuelOut (by simpa using hca)

/-- `MembershipRequestInternal` never exhausts seven units of fuel. -/
theorem mri_any_no_fuelOut {f : Nat} {s : PCM} {env : Env} :
    run (f + 1 + 1 + 1 + 1 + 1 + 1 + 1) .mri s env ≠ .error .fuelOut := by
  intro hx
  unfold run at hx
  repeat' split at hx
  all_goals try simp_all
  all_goals (
    cases hr : run (f + 1 + 1 + 1 + 1 + 1 + 1) .cbi
        { s with membership_state := .MEMBERSHIP_IN_USE } env with
    | error e2 =>
      rw [hr] at hx
      dsimp only at hx
      injection hx with hxx
      subst hxx
      exact cbi_any_no_fuelOut hr
    | ok r =>
      rw [hr] at hx
      exact Except.noConfusion hx)

/-- `ProcessClosure` never exhausts eight units of fuel. -/
theorem pc_any_no_fuelOut {f : Nat} {s : PCM} {env : Env} :
    run (f + 1 + 1 + 1 + 1 + 1 + 1 + 1 + 1) .pc s env ≠ .error .fuelOut := by
  intro hx
  unfold run at hx
  cases hd : processClosureDispatch s env with
  | error e =>
    rw [hd] at hx
    dsimp only at hx
    injection hx with hxx
    subst hxx
    exact dispatch_no_fuelOut s env hd
  | ok r =>
    obtain ⟨s1, ef1⟩ := r
    rw [hd] at hx
    dsimp only at hx
    cases hm : run (f + 1 + 1 + 1 + 1 + 1 + 1 + 1) .mri s1 env with
    | error e =>
      rw [hm] at hx
      dsimp only at hx
      injection hx with hxx
      subst hxx
      exact mri_any_no_fuelOut hm
    | ok r3 =>
      rw [hm] at hx
      exact Except.noConfusion hx

/-- The fuel handed out by the event dispatcher is never exhausted: no
handler returns the `fuelOut` error of the embedding, so the fuel is not
observable and the embedded handlers are total up to genuine assertion
failures. -/
theorem run_fuel_sufficient (s : PCM) (e : Event) :
    step s e ≠ .error .fuelOut := by
  cases e with
  | close g env =>
    intro hx
    simp only [step] at hx
    exact ci_no_fuelOut (f := 6) hx
  | eor family => simp [step]
  | restartTimerFired env =>
    intro hx
    simp only [step] at hx
    by_cases harm : s.stale_timer.armed = false
    · simp [harm] at hx
    · simp only [harm, if_false] at hx
      by_cases hcond : s.state = .GR_TIMER ∨ s.state = .LLGR_TIMER
      · rw [if_pos hcond] at hx
        exact pc_any_no_fuelOut (f := 4) hx
      · rw [if_neg hcond] at hx
        exact Except.noConfusion hx
  | sweepTimerFired env =>
    intro hx
    simp only [step] at hx
    by_cases harm : s.sweep_timer.armed = false
    · simp [harm] at hx
    · simp only [harm, if_false] at hx
      by_cases hsw : s.state = .SWEEP
      · rw [if_pos hsw] at hx
        cases hc : run fuelN .cc
            { s with sweep_timer := { s.sweep_timer with armed := false } } env with
        | error e2 =>
          rw [hc] at hx
          dsimp only at hx
          injection hx with hxx
          subst hxx
          exact cc_no_fuelOut (f := 7) hc
        | ok r =>
          rw [hc] at hx
          exact Except.noConfusion hx
      · rw [if_neg hsw] at hx
        simp at hx
  | walkDone env =>
    intro hx
    simp only [step] at hx
    exact cbi_any_no_fuelOut (f := 6) hx
  | membershipReqEvt env =>
    intro hx
    simp only [step] at hx
    exact mri_any_no_fuelOut (f := 5) hx

end BgpPeerClose
